import Mathlib

/-!
Verification development for the `@imgly/psd-importer` layer-to-scene-graph
transcoder (`src/lib/psd-parser`).  The TypeScript source is shallowly
embedded: JavaScript numbers are modelled by `ℚ`, strings carrying text
content by `List Char` or `String`, nullable values by `Option`, and the
mutable scene-engine state by explicit state passing.
-/

namespace PsdImporter

/-! ## Opacity compositor (`applyTreeOpacity`, `getBlendModeFillOpacity`) -/

/-- Model of `additionalProperties.iOpa` (blend options) of a PSD layer:
`fillOpacity` may be absent. -/
structure BlendOptions where
  fillOpacity : Option ℚ
deriving DecidableEq

/-- The fields of a PSD `Layer` read by `applyTreeOpacity`:
the optional `iOpa` blend options, the layer opacity (0-255 scale), and the
presence of the four vector-data markers `vmsk`, `vscg`, `vsms`, `vstk`. -/
structure PsdOpacityLayer where
  iOpa : Option BlendOptions
  opacity : ℚ
  vmsk : Bool
  vscg : Bool
  vsms : Bool
  vstk : Bool
deriving DecidableEq

/-- One ancestor node as seen by the upward walk of `applyTreeOpacity`:
`isGroup` models `node.type === "Group"`, `blendMode` models
`layerFrame?.layerProperties?.blendMode`, and `opacity` models the nullable
`parent.opacity` (the source falls back to 255 when it is absent). -/
structure PsdAncestor where
  isGroup : Bool
  blendMode : Option String
  opacity : Option ℚ
deriving DecidableEq

/-- Embedding of `getBlendModeFillOpacity` (index.ts lines 1689-1703): absent
`iOpa` yields 255, `fillOpacity ?? 255`, and an explicit zero is forced back
to 255 (with a logged warning, not modelled here). -/
def getBlendModeFillOpacity (layer : PsdOpacityLayer) : ℚ :=
  match layer.iOpa with
  | none => 255
  | some blendOptions =>
    let blendFillOpacity := blendOptions.fillOpacity.getD 255
    if blendFillOpacity = 0 then 255 else blendFillOpacity

/-- The CE.SDK type string of an image fill, compared against
`engine.block.getType(fill)` in the source. -/
def imageFillType : String := "//ly.img.ubq/fill/image"

/-- Embedding of `applyTreeOpacity` (index.ts lines 454-495).  `fillType` is
the type string of the fill attached to the created block; `ancestors` is
the parent chain of the layer, innermost parent first.  Returns the opacity
that the source computes and sets on the block. -/
def applyTreeOpacity (fillType : String) (layer : PsdOpacityLayer)
    (ancestors : List PsdAncestor) : ℚ :=
  let blendModeFillOpacity := getBlendModeFillOpacity layer / 255
  let layerOpacity := layer.opacity / 255
  let opacity := blendModeFillOpacity * layerOpacity
  let opacity :=
    if fillType = imageFillType ∧
        ¬(layer.vmsk ∨ layer.vscg ∨ layer.vsms ∨ layer.vstk) then
      blendModeFillOpacity
    else opacity
  let opacity := ancestors.foldl
    (fun o parent =>
      if parent.isGroup ∧ parent.blendMode = some "passThrough" then o
      else o * (parent.opacity.getD 255) / 255)
    opacity
  max 0 (min 1 opacity)

/-- One step of the ancestor walk of `applyTreeOpacity`. -/
def ancestorStep (o : ℚ) (parent : PsdAncestor) : ℚ :=
  if parent.isGroup ∧ parent.blendMode = some "passThrough" then o
  else o * (parent.opacity.getD 255) / 255

theorem applyTreeOpacity_eq_fold (fillType : String) (layer : PsdOpacityLayer)
    (ancestors : List PsdAncestor) :
    applyTreeOpacity fillType layer ancestors =
      max 0 (min 1 (ancestors.foldl ancestorStep
        (if fillType = imageFillType ∧
            ¬(layer.vmsk ∨ layer.vscg ∨ layer.vsms ∨ layer.vstk) then
          getBlendModeFillOpacity layer / 255
        else getBlendModeFillOpacity layer / 255 * (layer.opacity / 255)))) := by
  rfl

/-- C1: the final clamp together with skipping pass-through groups.  The two
bound conjuncts hold for every ancestor chain; the third conjunct removes one
pass-through group ancestor (of arbitrary opacity) from anywhere in the chain
without changing the result, which shows both the independence from its
opacity value and that the walk continues past it. -/
theorem applyTreeOpacity_inRange_passThrough_independent
    (fillType : String) (layer : PsdOpacityLayer) :
    (∀ ancestors : List PsdAncestor,
      0 ≤ applyTreeOpacity fillType layer ancestors ∧
        applyTreeOpacity fillType layer ancestors ≤ 1) ∧
    (∀ (pre post : List PsdAncestor) (o : Option ℚ),
      applyTreeOpacity fillType layer
          (pre ++ ⟨true, some "passThrough", o⟩ :: post) =
        applyTreeOpacity fillType layer (pre ++ post)) := by
  constructor
  · intro ancestors
    rw [applyTreeOpacity_eq_fold]
    constructor
    · exact le_max_left 0 _
    · exact max_le (by norm_num) (min_le_left 1 _)
  · intro pre post o
    rw [applyTreeOpacity_eq_fold, applyTreeOpacity_eq_fold]
    rw [List.foldl_append, List.foldl_append, List.foldl_cons]
    have hstep : ∀ x : ℚ,
        ancestorStep x ⟨true, some "passThrough", o⟩ = x := by
      intro x
      simp [ancestorStep]
    rw [hstep]

/-- The raster-layer scenario of claim C2: layer opacity 128, no `iOpa`
blend options, none of the four vector markers present. -/
def rasterLayer128 : PsdOpacityLayer :=
  ⟨none, 128, false, false, false, false⟩

/-- A non-pass-through group ancestor with opacity 255 (blend mode `norm`). -/
def normalGroup255 : PsdAncestor := ⟨true, some "norm", some 255⟩

/-- C2 counterexample: for a raster (image-fill, non-vector) layer with layer
opacity 128/255, fill opacity defaulting to 255, inside one non-pass-through
group of opacity 255, `applyTreeOpacity` sets opacity 1 (the fill opacity
alone), not approximately 128/255: the two values differ by 127/255. -/
theorem applyTreeOpacity_raster128_counterexample :
    applyTreeOpacity imageFillType rasterLayer128 [normalGroup255] = 1 ∧
      ¬ |applyTreeOpacity imageFillType rasterLayer128 [normalGroup255] -
          128 / 255| < 1 / 100 := by
  have h1 : applyTreeOpacity imageFillType rasterLayer128 [normalGroup255] = 1 := by
    simp [applyTreeOpacity, getBlendModeFillOpacity, rasterLayer128,
      normalGroup255, imageFillType]
  refine ⟨h1, ?_⟩
  rw [h1, abs_of_nonneg (by norm_num)]
  norm_num

/-- C2 amended: in the scenario of claim C2 the opacity set by
`applyTreeOpacity` is 1 — the default fill opacity 255/255 alone — whatever
the layer opacity is, because for a raster (image-fill, non-vector) fill the
layer opacity is dropped (it is already baked into the raster composite). -/
theorem applyTreeOpacity_raster_image_fill_opacity_only (layerOpacity : ℚ) :
    applyTreeOpacity imageFillType
      ⟨none, layerOpacity, false, false, false, false⟩ [normalGroup255] = 1 := by
  simp [applyTreeOpacity, getBlendModeFillOpacity, normalGroup255,
    imageFillType]

/-! ## Text style runs (`createTextBlock`, index.ts lines 688-770, 845-853) -/

/-- The two style-sheet attributes used by the letter-spacing computation of
`createTextBlock`; both may be absent (the source falls back to 0). -/
structure StyleSheetData where
  tracking : Option ℚ := none
  kerning : Option ℚ := none
deriving DecidableEq

/-- A built style run: a range (called `from`/`to` in the source; `from` is a
Lean keyword) plus its style-sheet data. -/
structure StyleRun where
  fromIdx : Int
  toIdx : Int
  styleSheetData : StyleSheetData
deriving DecidableEq

/-- Embedding of the style-run construction of `createTextBlock` (index.ts
lines 697-709).  The input pairs each entry of `RunLengthArray` with the
style-sheet data of the `RunArray` entry of the same index.  The source maps
over the length array with a mutable `textSectionStart` that advances only
for kept runs, subtracts 1 from the final entry's end (`lastOffset`), and
filters out runs with missing style data or an empty range. -/
def buildStyleRuns : Int → List (Nat × Option StyleSheetData) → List StyleRun
  | _, [] => []
  | textSectionStart, (len, styleSheetData) :: rest =>
    let lastOffset : Int := if rest = [] then -1 else 0
    let toVal := textSectionStart + (len : Int) + lastOffset
    match styleSheetData with
    | none => buildStyleRuns textSectionStart rest
    | some ssd =>
      if textSectionStart ≥ toVal then buildStyleRuns textSectionStart rest
      else ⟨textSectionStart, toVal, ssd⟩ ::
        buildStyleRuns (textSectionStart + (len : Int)) rest

/-- Sum of the run-length array, i.e. the text length the runs cover. -/
def natSum (rs : List (Nat × Option StyleSheetData)) : Nat :=
  (rs.map (·.1)).sum

theorem getLast?_fst_le_natSum :
    ∀ (rs : List (Nat × Option StyleSheetData)) (p : Nat × Option StyleSheetData),
      rs.getLast? = some p → p.1 ≤ natSum rs := by
  intro rs
  induction rs with
  | nil => intro p h; simp at h
  | cons a rest ih =>
    intro p h
    cases rest with
    | nil =>
      simp [List.getLast?] at h
      subst h
      simp [natSum]
    | cons b rest2 =>
      rw [List.getLast?_cons_cons] at h
      have := ih p h
      simp only [natSum, List.map_cons, List.sum_cons] at *
      omega

theorem buildStyleRuns_ranges :
    ∀ (rs : List (Nat × Option StyleSheetData)) (start : Int),
      (∀ p ∈ rs.getLast?, 1 ≤ p.1) →
      ∀ r ∈ buildStyleRuns start rs,
        r.fromIdx < r.toIdx ∧ r.toIdx ≤ start + (natSum rs : Int) - 1 := by
  intro rs
  induction rs with
  | nil => intro start _ r hr; simp [buildStyleRuns] at hr
  | cons a rest ih =>
    intro start hlast r hr
    obtain ⟨len, ssd?⟩ := a
    cases rest with
    | nil =>
      have hlen : 1 ≤ len := by
        have := hlast (len, ssd?) (by simp [List.getLast?])
        exact this
      cases ssd? with
      | none => simp [buildStyleRuns] at hr
      | some ssd =>
        simp only [buildStyleRuns, if_true, ite_true] at hr
        by_cases hge : start ≥ start + (len : Int) + (-1)
        · rw [if_pos hge] at hr
          simp [buildStyleRuns] at hr
        · rw [if_neg hge] at hr
          simp only [List.mem_singleton] at hr
          subst hr
          simp only [natSum, List.map_cons, List.map_nil, List.sum_cons,
            List.sum_nil]
          constructor
          · omega
          · push_cast
            omega
    | cons b rest2 =>
      have hlast2 : ∀ p ∈ (b :: rest2).getLast?, 1 ≤ p.1 := by
        intro p hp
        exact hlast p (by rwa [List.getLast?_cons_cons])
      have hsum : 1 ≤ natSum (b :: rest2) := by
        have hne : (b :: rest2).getLast? ≠ none := by
          intro h
          exact List.cons_ne_nil b rest2 (List.getLast?_eq_none_iff.mp h)
        obtain ⟨q, hq⟩ := Option.ne_none_iff_exists'.mp hne
        have hq1 : 1 ≤ q.1 := hlast2 q (by simp [hq])
        have hqs : q.1 ≤ natSum (b :: rest2) := getLast?_fst_le_natSum _ q hq
        omega
      have hcast : (natSum ((len, ssd?) :: b :: rest2) : Int) =
          (len : Int) + (natSum (b :: rest2) : Int) := by
        simp [natSum]
      cases ssd? with
      | none =>
        simp only [buildStyleRuns, List.cons_ne_nil, if_neg, reduceCtorEq,
          ite_false] at hr
        have := ih start hlast2 r hr
        omega
      | some ssd =>
        simp only [buildStyleRuns, reduceCtorEq, ite_false] at hr
        by_cases hge : start ≥ start + (len : Int) + 0
        · rw [if_pos hge] at hr
          have := ih start hlast2 r hr
          omega
        · rw [if_neg hge] at hr
          rcases List.mem_cons.mp hr with hhead | htail
          · subst hhead
            simp only []
            constructor
            · omega
            · omega
          · have := ih (start + (len : Int)) hlast2 r htail
            omega


/-- C10: when `createTextBlock` builds its style-run ranges, (1) the final
entry of length `len` starting at `start` yields the range
`[start, start + len - 1)` — one character early — kept only when nonempty;
(2) a run without style-sheet data is dropped; (3) every built run is
nonempty and ends strictly before the total run length, so the final
character of the text (index `natSum rs - 1`) lies in no run range.  The
hypothesis asks the last run length to be positive, as run-length encodings
produced by Photoshop are. -/
theorem buildStyleRuns_last_truncated_final_char_unstyled
    (rs : List (Nat × Option StyleSheetData))
    (hlast : ∀ p ∈ rs.getLast?, 1 ≤ p.1) :
    (∀ (start : Int) (len : Nat) (ssd : StyleSheetData),
      buildStyleRuns start [(len, some ssd)] =
        if start < start + (len : Int) - 1 then
          [⟨start, start + (len : Int) - 1, ssd⟩]
        else []) ∧
    (∀ (start : Int) (len : Nat) (rest : List (Nat × Option StyleSheetData)),
      buildStyleRuns start ((len, none) :: rest) = buildStyleRuns start rest) ∧
    (∀ r ∈ buildStyleRuns 0 rs, r.fromIdx < r.toIdx ∧ r.toIdx < (natSum rs : Int)) := by
  refine ⟨?_, ?_, ?_⟩
  · intro start len ssd
    simp only [buildStyleRuns, if_true, ite_true]
    by_cases h : start < start + (len : Int) - 1
    · rw [if_neg (by omega), if_pos h]
      simp [sub_eq_add_neg]
    · rw [if_pos (by omega), if_neg h]
  · intro start len rest
    simp only [buildStyleRuns]
  · intro r hr
    have := buildStyleRuns_ranges rs 0 hlast r hr
    omega

/-- The concrete two-run input used to evaluate the C10 theorem. -/
def twoRuns : List (Nat × Option StyleSheetData) :=
  [(5, some ⟨none, none⟩), (5, some ⟨none, none⟩)]

/-- Witness for C10 at the concrete input `twoRuns`: lengths [5,5], so the
built runs are the ranges 0..5 and 5..9, and index 9 (the final character)
is styled by neither. -/
theorem buildStyleRuns_last_truncated_final_char_unstyled_witness :
    (buildStyleRuns 0 [(3, some ⟨none, none⟩)] =
      if (0 : Int) < 0 + (3 : Nat) - 1 then
        [⟨0, 0 + ((3 : Nat) : Int) - 1, ⟨none, none⟩⟩]
      else []) ∧
    (buildStyleRuns 0 [((2 : Nat), none), (5, some ⟨none, none⟩)] =
      buildStyleRuns 0 [(5, some ⟨none, none⟩)]) ∧
    ((⟨5, 9, ⟨none, none⟩⟩ : StyleRun) ∈ buildStyleRuns 0 twoRuns ∧
      (5 : Int) < 9 ∧ (9 : Int) < (natSum twoRuns : Int)) := by
  have h := buildStyleRuns_last_truncated_final_char_unstyled twoRuns
    (by
      intro p hp
      rw [show twoRuns.getLast? = some (5, some ⟨none, none⟩) by decide] at hp
      simp only [Option.mem_def, Option.some.injEq] at hp
      subst hp
      decide)
  refine ⟨h.1 0 3 ⟨none, none⟩, h.2.1 0 2 [(5, some ⟨none, none⟩)], ?_⟩
  have hmem : (⟨5, 9, ⟨none, none⟩⟩ : StyleRun) ∈ buildStyleRuns 0 twoRuns := by
    simp [twoRuns, buildStyleRuns]
  have h3 := h.2.2 ⟨5, 9, ⟨none, none⟩⟩ hmem
  exact ⟨hmem, h3.1, h3.2⟩

/-- Embedding of the per-run spacing accumulation in the `styleRuns.forEach`
loop of `createTextBlock` (index.ts lines 766-770).  The first component is
`letterSpacingSum` (a true running sum of tracking times range length,
source operator `+=`); the second is `kerningSum`, which the source assigns
with `=` instead of `+=`, so it keeps only the last processed run's kerning
times range length. -/
def accumulateRunSpacing (runs : List StyleRun) : ℚ × ℚ :=
  runs.foldl
    (fun acc r =>
      (acc.1 + (r.styleSheetData.tracking.getD 0) * ((r.toIdx - r.fromIdx : Int) : ℚ),
        (r.styleSheetData.kerning.getD 0) * ((r.toIdx - r.fromIdx : Int) : ℚ)))
    (0, 0)

/-- Embedding of the `realLetterSpacing` computation of `createTextBlock`
(index.ts lines 845-853): `(letterSpacingSum/10/100 + kerningSum/10/100)`
divided by the text length. -/
def realLetterSpacing (runs : List StyleRun) (textLength : ℚ) : ℚ :=
  let sums := accumulateRunSpacing runs
  (sums.1 / 10 / 100 + sums.2 / 10 / 100) / textLength

/-- Modelled from the spec wording of claim C3: both the tracking term and
the kerning term are running sums over ALL runs, each divided by 1000, and
the total is divided by the text length. -/
def claimedLetterSpacing (runs : List StyleRun) (textLength : ℚ) : ℚ :=
  ((runs.map
      (fun r => (r.styleSheetData.tracking.getD 0) *
        ((r.toIdx - r.fromIdx : Int) : ℚ))).sum / 1000 +
    (runs.map
      (fun r => (r.styleSheetData.kerning.getD 0) *
        ((r.toIdx - r.fromIdx : Int) : ℚ))).sum / 1000) / textLength

/-- The failing input for C3: the style runs built from lengths [5,5] on a
10-character text where only the first run carries kerning (value 100). -/
def kerningRuns : List StyleRun :=
  buildStyleRuns 0 [(5, some ⟨none, some 100⟩), (5, some ⟨none, none⟩)]

/-- C3 (code bug): the source assigns `kerningSum` with `=` instead of `+=`
although its own comment says "accumulate kerning", so the kerning of every
run but the last is lost.  On `kerningRuns` the code computes letter
spacing 0 while the claimed running-sum formula gives 1/20. -/
theorem realLetterSpacing_drops_all_but_last_kerning :
    realLetterSpacing kerningRuns 10 = 0 ∧
      claimedLetterSpacing kerningRuns 10 = 1 / 20 ∧
      realLetterSpacing kerningRuns 10 ≠ claimedLetterSpacing kerningRuns 10 := by
  refine ⟨?_, ?_, ?_⟩ <;>
    norm_num [realLetterSpacing, claimedLetterSpacing, accumulateRunSpacing,
      kerningRuns, buildStyleRuns]

/-! ## Path reconstructor (`buildShapeFromPathRecords`, index.ts 1566-1677) -/

/-- A 2D path point with the `horiz`/`vert` fields of the PSD path record
encoding (fractional unit-square coordinates). -/
structure PathPoint where
  horiz : ℚ
  vert : ℚ
deriving DecidableEq

/-- The record type tags of `@webtoon/psd`'s `PathRecordType` that the
source switches on. -/
inductive PathRecordType where
  | ClosedSubpathLength
  | ClosedSubpathBezierKnotLinked
  | ClosedSubpathBezierKnotUnlinked
  | OpenSubpathLength
  | OpenSubpathBezierKnotLinked
  | OpenSubpathBezierKnotUnlinked
  | PathFillRule
  | Clipboard
  | InitialFillRule
deriving DecidableEq

/-- A PSD path record: a type tag, the three optional points of a knot
record (`anchor`, `leaving`, `preceding`; absent on marker records, which
models the `"anchor" in record && record.anchor !== null` guards), and the
`fill` flag of an `InitialFillRule` record. -/
structure PathRecord where
  type : PathRecordType
  anchor : Option PathPoint := none
  leaving : Option PathPoint := none
  preceding : Option PathPoint := none
  fill : Bool := false
deriving DecidableEq

/-- The coordinate normalization inside the loop of
`buildShapeFromPathRecords`: values of at least 200 encode negative numbers
and get 256 subtracted. -/
def normalize (value : ℚ) : ℚ :=
  if value < 200 then value else value - 256

/-- The in-place rewrite the loop applies to one point: normalize both
coordinates, then add the offsets. -/
def shiftPoint (offsetX offsetY : ℚ) (p : PathPoint) : PathPoint :=
  ⟨normalize p.horiz + offsetX, normalize p.vert + offsetY⟩

/-- The in-place rewrite the loop applies to one record: every present
`anchor`, `leaving` and `preceding` point is normalized and shifted. -/
def shiftRecord (offsetX offsetY : ℚ) (r : PathRecord) : PathRecord :=
  { r with
    anchor := r.anchor.map (shiftPoint offsetX offsetY)
    leaving := r.leaving.map (shiftPoint offsetX offsetY)
    preceding := r.preceding.map (shiftPoint offsetX offsetY) }

/-- Embedding of `getSvgMoveTo`: a move-to command to the record's anchor
scaled by the target width and height.  (JavaScript float formatting is
abstracted by `toString` on `ℚ`.) -/
def getSvgMoveTo (record : PathRecord) (w h : ℚ) : String :=
  let aHoriz := (record.anchor.getD ⟨0, 0⟩).horiz * w
  let aVert := (record.anchor.getD ⟨0, 0⟩).vert * h
  "M " ++ toString aHoriz ++ "," ++ toString aVert ++ " "

/-- Embedding of `getSvgCurve`: a cubic curve from the previous knot's
leaving control point through the current knot's preceding control point to
the current anchor, all scaled by the target width and height. -/
def getSvgCurve (previous current : PathRecord) (w h : ℚ) : String :=
  let pHoriz := (previous.leaving.getD ⟨0, 0⟩).horiz * w
  let pVert := (previous.leaving.getD ⟨0, 0⟩).vert * h
  let aHoriz := (current.anchor.getD ⟨0, 0⟩).horiz * w
  let aVert := (current.anchor.getD ⟨0, 0⟩).vert * h
  let lHoriz := (current.preceding.getD ⟨0, 0⟩).horiz * w
  let lVert := (current.preceding.getD ⟨0, 0⟩).vert * h
  "C " ++ toString pHoriz ++ "," ++ toString pVert ++ " " ++
    toString lHoriz ++ "," ++ toString lVert ++ " " ++
    toString aHoriz ++ "," ++ toString aVert ++ " "

/-- The mutable state of the `for` loop of `buildShapeFromPathRecords`.
`recordsOut` models the input array, whose records the source rewrites in
place before using them. -/
structure PathLoopState where
  pathFillRule : Bool
  initialFillRule : Bool
  isFirstPoint : Bool
  previousPoint : Option PathRecord
  firstPoint : Option PathRecord
  isClosed : Bool
  svgPath : String
  recordsOut : List PathRecord

/-- One iteration of the loop of `buildShapeFromPathRecords`: rewrite the
record in place (normalize plus offset), then switch on its type. -/
def pathLoopStep (w h offsetX offsetY : ℚ) (s : PathLoopState)
    (record : PathRecord) : PathLoopState :=
  let record := shiftRecord offsetX offsetY record
  let s := { s with recordsOut := s.recordsOut ++ [record] }
  match record.type with
  | PathRecordType.ClosedSubpathBezierKnotLinked
  | PathRecordType.ClosedSubpathBezierKnotUnlinked
  | PathRecordType.OpenSubpathBezierKnotLinked
  | PathRecordType.OpenSubpathBezierKnotUnlinked =>
    let s :=
      if record.type = PathRecordType.OpenSubpathBezierKnotLinked ∨
          record.type = PathRecordType.OpenSubpathBezierKnotUnlinked then
        { s with isClosed := false }
      else s
    let s :=
      if s.isFirstPoint then
        { s with firstPoint := some record, isFirstPoint := false }
      else
        match s.previousPoint with
        | some previousPoint =>
          { s with svgPath := s.svgPath ++ getSvgCurve previousPoint record w h }
        | none => s
    { s with previousPoint := some record }
  | PathRecordType.ClosedSubpathLength => s
  | PathRecordType.OpenSubpathLength => s
  | PathRecordType.PathFillRule => { s with pathFillRule := true }
  | PathRecordType.Clipboard => s
  | PathRecordType.InitialFillRule => { s with initialFillRule := record.fill }

/-- Embedding of `buildShapeFromPathRecords` (index.ts lines 1566-1677).
Returns the serialized path description together with the record list after
the source's in-place rewrites (the source mutates the caller's array; the
state-passing embedding returns it). -/
def buildShapeFromPathRecords (pathRecords : List PathRecord)
    (width height offsetX offsetY : ℚ) : String × List PathRecord :=
  let s0 : PathLoopState := ⟨false, false, true, none, none, true, "", []⟩
  let s := pathRecords.foldl (pathLoopStep width height offsetX offsetY) s0
  let svgPath :=
    if s.isClosed then
      let firstCurve :=
        match s.firstPoint, s.previousPoint with
        | some firstPoint, some previousPoint =>
          getSvgCurve previousPoint firstPoint width height
        | _, _ => ""
      s.svgPath ++ firstCurve ++ "Z"
    else
      let firstCurve :=
        match s.firstPoint with
        | some firstPoint => getSvgCurve firstPoint firstPoint width height
        | none => ""
      firstCurve ++ s.svgPath
  let moveTo :=
    match s.firstPoint with
    | some firstPoint => getSvgMoveTo firstPoint width height
    | none => ""
  (moveTo ++ svgPath, s.recordsOut)

/-- C8 counterexample: for the empty record list the source does NOT return
the empty string — the `isClosed` branch still appends the close marker, so
the result is `"Z"`. -/
theorem buildShapeFromPathRecords_empty_counterexample :
    (buildShapeFromPathRecords [] 200 100 0 0).1 ≠ "" := by
  decide

/-- C8 amended: for an empty path-record list `buildShapeFromPathRecords`
returns the single close command `"Z"` — no move or curve commands, but not
the empty string. -/
theorem buildShapeFromPathRecords_empty_eq_Z (width height offsetX offsetY : ℚ) :
    (buildShapeFromPathRecords [] width height offsetX offsetY).1 = "Z" := by
  rfl

theorem pathLoopStep_recordsOut (w h offsetX offsetY : ℚ) (s : PathLoopState)
    (record : PathRecord) :
    (pathLoopStep w h offsetX offsetY s record).recordsOut =
      s.recordsOut ++ [shiftRecord offsetX offsetY record] := by
  simp only [pathLoopStep]
  repeat' split
  all_goals rfl

theorem foldl_pathLoopStep_recordsOut (w h offsetX offsetY : ℚ) :
    ∀ (pathRecords : List PathRecord) (s : PathLoopState),
      (pathRecords.foldl (pathLoopStep w h offsetX offsetY) s).recordsOut =
        s.recordsOut ++ pathRecords.map (shiftRecord offsetX offsetY) := by
  intro pathRecords
  induction pathRecords with
  | nil => intro s; simp
  | cons r rest ih =>
    intro s
    rw [List.foldl_cons, ih, pathLoopStep_recordsOut]
    simp

/-- C9: `buildShapeFromPathRecords` rewrites its input records: in the
returned record list, every present `anchor`, `leaving` and `preceding`
point of every record is `normalize` of the original coordinate plus the
offset (`normalize v = v` for `v < 200`, `v - 256` otherwise) — the
state-passing image of the source's uncopied in-place mutation, which
permanently shifts the caller's path data. -/
theorem buildShapeFromPathRecords_mutates_records
    (pathRecords : List PathRecord) (width height offsetX offsetY : ℚ) :
    (buildShapeFromPathRecords pathRecords width height offsetX offsetY).2 =
      pathRecords.map (fun r =>
        { r with
          anchor := r.anchor.map (fun p =>
            ⟨normalize p.horiz + offsetX, normalize p.vert + offsetY⟩)
          leaving := r.leaving.map (fun p =>
            ⟨normalize p.horiz + offsetX, normalize p.vert + offsetY⟩)
          preceding := r.preceding.map (fun p =>
            ⟨normalize p.horiz + offsetX, normalize p.vert + offsetY⟩) }) := by
  show (buildShapeFromPathRecords pathRecords width height offsetX offsetY).2 =
    pathRecords.map (shiftRecord offsetX offsetY)
  simp only [buildShapeFromPathRecords]
  rw [foldl_pathLoopStep_recordsOut]
  simp

/-! ## Deferred grouping (`createGroups`, index.ts 341-357) -/

/-- The warning message logged when grouping a member list throws. -/
def createGroupWarning (groupMembers : List Nat) (error : String) : String :=
  "Error occurred when trying to create a group" ++ ", blocks: " ++
    toString groupMembers ++ ", error: " ++ error

/-- Embedding of `createGroups` (index.ts lines 341-357).  The engine's
`isGroupable` and `group` calls are external and may throw, modelled as
`Except`; the `try` block of the source wraps both calls.  Returns the
member lists actually grouped and the logged warnings, in iteration
order. -/
def createGroups (isGroupable : List Nat → Except String Bool)
    (group : List Nat → Except String Unit)
    (groupsMap : List (Nat × List Nat)) : List (List Nat) × List String :=
  groupsMap.foldl
    (fun acc entry =>
      let groupMembers := entry.2
      if groupMembers.length ≤ 1 then acc
      else
        match isGroupable groupMembers with
        | Except.error e => (acc.1, acc.2 ++ [createGroupWarning groupMembers e])
        | Except.ok false => acc
        | Except.ok true =>
          match group groupMembers with
          | Except.error e =>
            (acc.1, acc.2 ++ [createGroupWarning groupMembers e])
          | Except.ok _ => (acc.1 ++ [groupMembers], acc.2))
    ([], [])

/-- C7 counterexample: a two-member list that the engine reports as
non-groupable (without throwing) is skipped with NO warning logged — the
source hits `if (!groupable) continue;` before any logging — contradicting
the claim that such lists are skipped with a warning. -/
theorem createGroups_nonGroupable_skipped_silently :
    (createGroups (fun _ => Except.ok false) (fun _ => Except.ok ())
        [(1, [10, 11])]).1 = [] ∧
      (createGroups (fun _ => Except.ok false) (fun _ => Except.ok ())
        [(1, [10, 11])]).2 = [] := by
  constructor <;> rfl

/-- What one map entry contributes to the grouped lists: its member list,
exactly when it has more than one member, the engine reports it groupable
and the grouping call does not throw. -/
def createGroupsEntryGrouped (isGroupable : List Nat → Except String Bool)
    (group : List Nat → Except String Unit) (entry : Nat × List Nat) :
    Option (List Nat) :=
  if entry.2.length ≤ 1 then none
  else
    match isGroupable entry.2 with
    | Except.error _ => none
    | Except.ok false => none
    | Except.ok true =>
      match group entry.2 with
      | Except.error _ => none
      | Except.ok _ => some entry.2

/-- What one map entry contributes to the warnings: one warning exactly when
its groupability check or its grouping call throws; lists with at most one
member and lists reported non-groupable contribute nothing. -/
def createGroupsEntryWarning (isGroupable : List Nat → Except String Bool)
    (group : List Nat → Except String Unit) (entry : Nat × List Nat) :
    Option String :=
  if entry.2.length ≤ 1 then none
  else
    match isGroupable entry.2 with
    | Except.error e => some (createGroupWarning entry.2 e)
    | Except.ok false => none
    | Except.ok true =>
      match group entry.2 with
      | Except.error e => some (createGroupWarning entry.2 e)
      | Except.ok _ => none

theorem createGroups_foldl_acc (isGroupable : List Nat → Except String Bool)
    (group : List Nat → Except String Unit) :
    ∀ (entries : List (Nat × List Nat)) (acc : List (List Nat) × List String),
      entries.foldl
        (fun acc entry =>
          let groupMembers := entry.2
          if groupMembers.length ≤ 1 then acc
          else
            match isGroupable groupMembers with
            | Except.error e =>
              (acc.1, acc.2 ++ [createGroupWarning groupMembers e])
            | Except.ok false => acc
            | Except.ok true =>
              match group groupMembers with
              | Except.error e =>
                (acc.1, acc.2 ++ [createGroupWarning groupMembers e])
              | Except.ok _ => (acc.1 ++ [groupMembers], acc.2)) acc =
        (acc.1 ++ entries.filterMap (createGroupsEntryGrouped isGroupable group),
          acc.2 ++ entries.filterMap (createGroupsEntryWarning isGroupable group)) := by
  intro entries
  induction entries with
  | nil => intro acc; simp
  | cons entry rest ih =>
    intro acc
    rw [List.foldl_cons, ih]
    simp only [List.filterMap_cons, createGroupsEntryGrouped,
      createGroupsEntryWarning]
    by_cases hlen : entry.2.length ≤ 1
    · simp [hlen]
    · simp only [hlen, if_false, ite_false]
      cases hg : isGroupable entry.2 with
      | error e => simp
      | ok b =>
        cases b with
        | false => simp
        | true =>
          cases hgr : group entry.2 with
          | error e => simp
          | ok u => simp

/-- C7 amended: after the traversal `createGroups` processes each collected
membership list independently: every list with more than one member that
the engine reports groupable and whose grouping call does not throw is
grouped; a list the engine reports as non-groupable is skipped SILENTLY
(no warning — the claim wrongly asserts one); a list whose groupability
check or grouping call throws is skipped with a warning; and no entry's
outcome affects any other entry's processing (the result is a per-entry
`filterMap`). -/
theorem createGroups_per_entry_isolated
    (isGroupable : List Nat → Except String Bool)
    (group : List Nat → Except String Unit)
    (groupsMap : List (Nat × List Nat)) :
    createGroups isGroupable group groupsMap =
      (groupsMap.filterMap (createGroupsEntryGrouped isGroupable group),
        groupsMap.filterMap (createGroupsEntryWarning isGroupable group)) := by
  unfold createGroups
  rw [createGroups_foldl_acc]
  simp

/-! ## Letter-spacing fit search (`textFitting`, index.ts 929-1048) -/

/-- The text-block state read and written by `textFitting`: height, height
mode, letter spacing and font size.  The frame height computed by the
layout engine in automatic height mode is external and is modelled by a
function `frameH` of the current letter spacing (everything else about the
block is fixed during the search). -/
structure TextBlockFitState where
  height : ℚ
  heightMode : String
  letterSpacing : ℚ
  fontSize : ℚ
deriving DecidableEq

/-- Embedding of the `isOverflowing` closure of `textFitting`: the frame
height at the current letter spacing exceeds the real block height by more
than half the font size. -/
def isOverflowing (frameH : ℚ → ℚ) (fontSize letterSpacing
    realTextBlockHeight : ℚ) : Bool :=
  frameH letterSpacing - realTextBlockHeight > fontSize / 2

/-- Embedding of the `isPerfectFit` closure: remember whether the block
overflows now, decrement the letter spacing by one step (a side effect the
source keeps), and report whether the block overflowed before but not
after.  Returns the flag and the updated letter spacing. -/
def isPerfectFit (frameH : ℚ → ℚ) (fontSize step letterSpacing
    realTextBlockHeight : ℚ) : Bool × ℚ :=
  let overflowingNow := isOverflowing frameH fontSize letterSpacing
    realTextBlockHeight
  let newLetterSpacing := letterSpacing - step
  let overflowingAfter := isOverflowing frameH fontSize newLetterSpacing
    realTextBlockHeight
  (overflowingNow && !overflowingAfter, newLetterSpacing)

/-- Embedding of the `recursiveLetterSpacingChange` closure.  The source
counter guard is `counter > Math.sqrt(maxAdjustmentSteps)`, which for a
natural counter is equivalent to `counter * counter > maxAdjustmentSteps`.
`Math.round((min + max) / 2)` on integer bounds equals
`⌊(min + max + 1) / 2⌋`.  The structural `fuel` argument only bounds the
recursion depth; it is chosen strictly larger than any counter value the
guard admits, so the fuel-exhaustion case (which mirrors the guard's
`null`) is never reached. -/
def recursiveLetterSpacingChange (frameH : ℚ → ℚ)
    (fontSize step originalLetterSpacing originalHeight : ℚ)
    (maxAdjustmentSteps : ℕ) :
    ℕ → ℕ → ℚ → Int → Int → Option ℚ × ℚ
  | 0, _, letterSpacing, _, _ => (none, letterSpacing)
  | fuel + 1, counter, letterSpacing, minLetterSpacingChange,
      maxLetterSpacingChange =>
    if counter * counter > maxAdjustmentSteps then (none, letterSpacing)
    else
      let perfectFit := isPerfectFit frameH fontSize step letterSpacing
        originalHeight
      if perfectFit.1 then (some perfectFit.2, perfectFit.2)
      else
        let middleSteps : Int :=
          Int.fdiv (minLetterSpacingChange + maxLetterSpacingChange + 1) 2
        let newLetterSpacing := originalLetterSpacing + middleSteps * step
        if isOverflowing frameH fontSize newLetterSpacing originalHeight then
          recursiveLetterSpacingChange frameH fontSize step
            originalLetterSpacing originalHeight maxAdjustmentSteps
            fuel (counter + 1) newLetterSpacing
            minLetterSpacingChange middleSteps
        else
          recursiveLetterSpacingChange frameH fontSize step
            originalLetterSpacing originalHeight maxAdjustmentSteps
            fuel (counter + 1) newLetterSpacing
            middleSteps maxLetterSpacingChange

/-- Embedding of `textFitting` (index.ts lines 929-1048).  Reads the
original height, switches the height mode to automatic, reads the baseline
letter spacing and font size, runs the bounded binary search, reverts the
letter spacing and logs a warning when the result is falsy (JavaScript
treats both `null` and `0` as falsy in `if (!realLetterSpacing)`), and
always restores fixed height mode and the original height.  The search gets
fuel `maxAdjustmentSteps + 2`, which its counter guard never exhausts.
Returns the final block state, whether the warning was logged, and the raw
search result (`none` exactly when the iteration budget ran out). -/
def textFitting (frameH : ℚ → ℚ) (st : TextBlockFitState)
    (step : ℚ) (maxAdjustmentSteps : ℕ) :
    TextBlockFitState × Bool × Option ℚ :=
  let originalHeight := st.height
  let st1 := { st with heightMode := "Auto" }
  let originalLetterSpacing := st1.letterSpacing
  let fontSize := st1.fontSize
  let r := recursiveLetterSpacingChange frameH fontSize step
    originalLetterSpacing originalHeight maxAdjustmentSteps
    (maxAdjustmentSteps + 2) 0 st1.letterSpacing
    (-(maxAdjustmentSteps : Int)) (maxAdjustmentSteps : Int)
  let realLetterSpacing := r.1
  let falsy := realLetterSpacing = none ∨ realLetterSpacing = some 0
  let finalLetterSpacing := if falsy then originalLetterSpacing else r.2
  ({ st1 with
      letterSpacing := finalLetterSpacing
      heightMode := "Absolute"
      height := originalHeight },
    decide falsy, realLetterSpacing)

/-- C6: whatever the layout oracle does, `textFitting` exits with the height
mode restored to fixed (`Absolute`) and the height set back to the value
read at entry; and when the search exhausts its iteration budget (result
`none`), the letter spacing is reverted to the baseline read at entry and
the could-not-fit warning is logged. -/
theorem textFitting_restores_height_reverts_spacing_on_budget
    (frameH : ℚ → ℚ) (st : TextBlockFitState) (step : ℚ)
    (maxAdjustmentSteps : ℕ) :
    ((textFitting frameH st step maxAdjustmentSteps).1.heightMode = "Absolute" ∧
      (textFitting frameH st step maxAdjustmentSteps).1.height = st.height) ∧
    ((textFitting frameH st step maxAdjustmentSteps).2.2 = none →
      (textFitting frameH st step maxAdjustmentSteps).1.letterSpacing =
          st.letterSpacing ∧
        (textFitting frameH st step maxAdjustmentSteps).2.1 = true) := by
  refine ⟨⟨rfl, rfl⟩, ?_⟩
  intro h
  have h' : (recursiveLetterSpacingChange frameH st.fontSize step
      st.letterSpacing st.height maxAdjustmentSteps (maxAdjustmentSteps + 2) 0
      st.letterSpacing (-(maxAdjustmentSteps : Int))
      (maxAdjustmentSteps : Int)).1 = none := h
  constructor
  · simp [textFitting, h']
  · simp [textFitting, h']

/-- A layout oracle whose frame height is always 1000, far above any target
height, so the fit search can never find a perfect fit. -/
def constFrameH : ℚ → ℚ := fun _ => 1000

/-- A concrete text block state for the C6 witness. -/
def fitState0 : TextBlockFitState := ⟨10, "Absolute", 0, 12⟩

/-- When the layout oracle always reports overflow, no perfect fit exists
and the search always exhausts its budget (returns `none`). -/
theorem recursiveLetterSpacingChange_none_of_always_overflowing
    (frameH : ℚ → ℚ) (fontSize step originalLetterSpacing originalHeight : ℚ)
    (maxAdjustmentSteps : ℕ)
    (hover : ∀ ls, isOverflowing frameH fontSize ls originalHeight = true) :
    ∀ (fuel counter : ℕ) (ls : ℚ) (minC maxC : Int),
      (recursiveLetterSpacingChange frameH fontSize step
        originalLetterSpacing originalHeight maxAdjustmentSteps fuel counter
        ls minC maxC).1 = none := by
  intro fuel
  induction fuel with
  | zero => intro counter ls minC maxC; rfl
  | succ fuel ih =>
    intro counter ls minC maxC
    simp only [recursiveLetterSpacingChange]
    by_cases hg : counter * counter > maxAdjustmentSteps
    · rw [if_pos hg]
    · rw [if_neg hg]
      have hpf : (isPerfectFit frameH fontSize step ls originalHeight).1 =
          false := by
        simp [isPerfectFit, hover]
      simp only [hpf, Bool.false_eq_true, if_false, ite_false]
      split
      · exact ih _ _ _ _
      · exact ih _ _ _ _

/-- Witness for C6: on `constFrameH` the search exhausts its budget
(result `none`), and the theorem yields the restored height mode, height,
the reverted letter spacing and the logged warning. -/
theorem textFitting_restores_height_reverts_spacing_on_budget_witness :
    (textFitting constFrameH fitState0 (1 / 1000) 500).2.2 = none ∧
      (textFitting constFrameH fitState0 (1 / 1000) 500).1.heightMode =
        "Absolute" ∧
      (textFitting constFrameH fitState0 (1 / 1000) 500).1.height =
        fitState0.height ∧
      (textFitting constFrameH fitState0 (1 / 1000) 500).1.letterSpacing =
        fitState0.letterSpacing ∧
      (textFitting constFrameH fitState0 (1 / 1000) 500).2.1 = true := by
  have hover : ∀ ls, isOverflowing constFrameH (12 : ℚ) ls (10 : ℚ) = true := by
    intro ls
    simp only [isOverflowing, constFrameH]
    norm_num
  have hnone : (textFitting constFrameH fitState0 (1 / 1000) 500).2.2 = none :=
    recursiveLetterSpacingChange_none_of_always_overflowing constFrameH 12
      (1 / 1000) 0 10 500 hover 502 0 0 (-(500 : Int)) 500
  have h := textFitting_restores_height_reverts_spacing_on_budget constFrameH
    fitState0 (1 / 1000) 500
  exact ⟨hnone, h.1.1, h.1.2, (h.2 hnone).1, (h.2 hnone).2⟩

/-! ## Scene-engine state and clip masks (`applyParentClipMasks`,
`createClipMaskLayer`, index.ts 231-339) -/

/-- An RGBA color value passed to the engine. -/
structure RGBAColorModel where
  r : ℚ
  g : ℚ
  b : ℚ
  a : ℚ
deriving DecidableEq

/-- The per-block state of the scene engine that the clip-mask code reads
and writes.  The color fill and vector-path shape objects attached through
`createFill`/`setFill` and `createShape`/`setShape` are modelled as fields
of their owning block (the engine destroys them with it). -/
structure BlockData where
  posX : ℚ := 0
  posY : ℚ := 0
  width : ℚ := 0
  height : ℚ := 0
  fillEnabled : Bool := false
  fillColor : Option RGBAColorModel := none
  kind : Option String := none
  shapePath : Option String := none
  shapeWidth : Option ℚ := none
  shapeHeight : Option ℚ := none
  cropScaleX : Option ℚ := none
  cropScaleY : Option ℚ := none
  cropTranslationX : Option ℚ := none
  cropTranslationY : Option ℚ := none
  children : List Nat := []
deriving DecidableEq

/-- The scene-engine state: the living blocks keyed by id, plus the next
fresh id. -/
structure EngineState where
  blocks : List (Nat × BlockData)
  nextId : Nat
deriving DecidableEq

/-- Association-list lookup of a block id. -/
def findBlock : List (Nat × BlockData) → Nat → Option BlockData
  | [], _ => none
  | b :: rest, id => if b.1 = id then some b.2 else findBlock rest id

/-- Engine lookup of a block's data. -/
def lookupBlock (st : EngineState) (id : Nat) : Option BlockData :=
  findBlock st.blocks id

/-- `engine.block.isValid`. -/
def isValid (st : EngineState) (id : Nat) : Bool :=
  (lookupBlock st id).isSome

/-- `engine.block.create`: returns the fresh id and the new state. -/
def createBlock (st : EngineState) : Nat × EngineState :=
  (st.nextId,
    { blocks := st.blocks ++ [(st.nextId, {})], nextId := st.nextId + 1 })

/-- Apply a field update to one block. -/
def updateBlock (st : EngineState) (id : Nat) (f : BlockData → BlockData) :
    EngineState :=
  { st with
    blocks := st.blocks.map (fun b => if b.1 = id then (b.1, f b.2) else b) }

/-- `engine.block.appendChild`. -/
def appendChild (st : EngineState) (parent child : Nat) : EngineState :=
  updateBlock st parent (fun d => { d with children := d.children ++ [child] })

/-- Removing one id from a block's children list (destroy detaches the
destroyed block from its parent). -/
def detachChild (id : Nat) (d : BlockData) : BlockData :=
  { d with children := d.children.filter (· ≠ id) }

/-- `engine.block.destroy`: removes the block and detaches its id from every
children list. -/
def destroyBlock (st : EngineState) (id : Nat) : EngineState :=
  { st with
    blocks := (st.blocks.filter (fun b => b.1 ≠ id)).map
      (fun b => (b.1, detachChild id b.2)) }

/-- `engine.block.getWidth` (0 when the block does not exist). -/
def getWidth (st : EngineState) (id : Nat) : ℚ :=
  ((lookupBlock st id).map (·.width)).getD 0

/-- `engine.block.getHeight`. -/
def getHeight (st : EngineState) (id : Nat) : ℚ :=
  ((lookupBlock st id).map (·.height)).getD 0

/-- `engine.block.getPositionX`. -/
def getPositionX (st : EngineState) (id : Nat) : ℚ :=
  ((lookupBlock st id).map (·.posX)).getD 0

/-- `engine.block.getPositionY`. -/
def getPositionY (st : EngineState) (id : Nat) : ℚ :=
  ((lookupBlock st id).map (·.posY)).getD 0

/-- The geometry (position and size) of a block, used to state that the
failure path leaves the primary block untouched. -/
def lookupGeom (st : EngineState) (id : Nat) : Option (ℚ × ℚ × ℚ × ℚ) :=
  (lookupBlock st id).map (fun d => (d.posX, d.posY, d.width, d.height))

/-- An ancestor node as seen by the clip-mask walk: whether it is a group,
its optional vector mask path records, and whether it carries raster mask
parameters (`maskData?.parameters`, which only triggers a logged warning). -/
structure PsdGroupNode where
  isGroup : Bool
  vmsk : Option (List PathRecord)
  hasOwnMaskParams : Bool
deriving DecidableEq

/-- Embedding of `createClipMaskLayer` (index.ts lines 288-339): when the
node has a vector mask, create a graphic block with a red color fill and a
vector-path shape built from the mask's path records at full document size,
append it to the page, and return it; otherwise return `null` and leave the
state unchanged.  (The raster-mask warning log is not modelled.) -/
def createClipMaskLayer (docWidth docHeight : ℚ) (psdNode : PsdGroupNode)
    (page : Nat) (st : EngineState) : Option Nat × EngineState :=
  match psdNode.vmsk with
  | none => (none, st)
  | some pathRecords =>
    let created := createBlock st
    let graphicBlock := created.1
    let st1 := created.2
    let st2 := updateBlock st1 graphicBlock (fun d =>
      { d with fillEnabled := true, fillColor := some ⟨1, 0, 0, 1⟩ })
    let st3 := updateBlock st2 graphicBlock (fun d =>
      { d with kind := some "shape", width := docWidth, height := docHeight })
    let svgPath :=
      (buildShapeFromPathRecords pathRecords docWidth docHeight 0 0).1
    let st4 := updateBlock st3 graphicBlock (fun d =>
      { d with
        shapePath := some svgPath
        shapeWidth := some docWidth
        shapeHeight := some docHeight })
    let st5 := appendChild st4 page graphicBlock
    (some graphicBlock, st5)

/-- Embedding of the mask-gathering `while` loop of `applyParentClipMasks`:
walk the parent chain (innermost first) and collect one mask block per
`Group` ancestor that yields one. -/
def gatherParentClipMasks (docWidth docHeight : ℚ)
    (ancestors : List PsdGroupNode) (page : Nat) (st : EngineState) :
    List Nat × EngineState :=
  match ancestors with
  | [] => ([], st)
  | currentNode :: rest =>
    if currentNode.isGroup then
      match createClipMaskLayer docWidth docHeight currentNode page st with
      | (some maskBlock, st1) =>
        let r := gatherParentClipMasks docWidth docHeight rest page st1
        (maskBlock :: r.1, r.2)
      | (none, st1) => gatherParentClipMasks docWidth docHeight rest page st1
    else gatherParentClipMasks docWidth docHeight rest page st

/-- Embedding of `applyParentClipMasks` (index.ts lines 231-281).  `combine`
is the engine's fallible `combine(_, "Intersection")` call, which either
throws (`none`, leaving the state as it was) or returns the new block.  On
failure every created mask block that is still valid is destroyed and the
original block id is returned; on success the crop scale and translation of
the combined block are derived from the old and new geometry. -/
def applyParentClipMasks
    (combine : List Nat → EngineState → Option (Nat × EngineState))
    (docWidth docHeight : ℚ) (ancestors : List PsdGroupNode)
    (block page : Nat) (st : EngineState) : Nat × EngineState :=
  let gathered := gatherParentClipMasks docWidth docHeight ancestors page st
  let masks := gathered.1
  let st1 := gathered.2
  if masks.length = 0 then (block, st1)
  else
    let oldWidth := getWidth st1 block
    let oldHeight := getHeight st1 block
    let oldPosX := getPositionX st1 block
    let oldPosY := getPositionY st1 block
    match combine (block :: masks) st1 with
    | none =>
      let st2 := masks.foldl
        (fun s m => if isValid s m then destroyBlock s m else s) st1
      (block, st2)
    | some (newBlock, st2) =>
      let newWidth := getWidth st2 newBlock
      let newHeight := getHeight st2 newBlock
      let newPosX := getPositionX st2 newBlock
      let newPosY := getPositionY st2 newBlock
      let st3 := updateBlock st2 newBlock (fun d =>
        { d with
          cropScaleX := some (oldWidth / newWidth)
          cropScaleY := some (oldHeight / newHeight)
          cropTranslationX := some ((oldPosX - newPosX) / newWidth)
          cropTranslationY := some ((oldPosY - newPosY) / newHeight) })
      (newBlock, st3)

theorem findBlock_mem :
    ∀ (l : List (Nat × BlockData)) (id : Nat) (d : BlockData),
      findBlock l id = some d → (id, d) ∈ l := by
  intro l
  induction l with
  | nil => intro id d h; simp [findBlock] at h
  | cons b rest ih =>
    intro id d h
    by_cases hb : b.1 = id
    · rw [findBlock, if_pos hb] at h
      injection h with h2
      subst h2
      subst hb
      rw [Prod.mk.eta]
      exact List.mem_cons_self b rest
    · rw [findBlock, if_neg hb] at h
      exact List.mem_cons_of_mem b (ih id d h)

theorem findBlock_append_singleton (l : List (Nat × BlockData)) (n : Nat)
    (d : BlockData) (id : Nat) (h : id ≠ n) :
    findBlock (l ++ [(n, d)]) id = findBlock l id := by
  induction l with
  | nil => simp [findBlock, if_neg (Ne.symm h)]
  | cons b rest ih =>
    by_cases hb : b.1 = id <;> simp [findBlock, hb, ih]

theorem findBlock_append_singleton_isSome (l : List (Nat × BlockData))
    (n : Nat) (d : BlockData) (id : Nat) :
    (findBlock (l ++ [(n, d)]) id).isSome = true →
      (findBlock l id).isSome = true ∨ id = n := by
  by_cases h : id = n
  · intro _; right; exact h
  · rw [findBlock_append_singleton l n d id h]
    intro hs; left; exact hs

theorem findBlock_update (l : List (Nat × BlockData)) (i : Nat)
    (f : BlockData → BlockData) (id : Nat) :
    findBlock (l.map (fun b => if b.1 = i then (b.1, f b.2) else b)) id =
      if id = i then (findBlock l id).map f else findBlock l id := by
  induction l with
  | nil => simp [findBlock]
  | cons b rest ih =>
    by_cases hbi : b.1 = i <;> by_cases hbd : b.1 = id
    · have hid : id = i := hbd ▸ hbi
      simp [findBlock, hbi, hbd, hid]
    · have hid : ¬id = i := fun hh => hbd (hh ▸ hbi)
      have hid' : ¬i = id := fun hh => hid hh.symm
      simp [findBlock, hbi, hbd, hid, hid', ih]
    · have hid : ¬id = i := fun hh => hbi (hh ▸ hbd)
      simp [findBlock, hbi, hbd, hid, ih]
    · simp [findBlock, hbi, hbd, ih]

theorem findBlock_destroy (l : List (Nat × BlockData)) (m id : Nat) :
    findBlock ((l.filter (fun b => b.1 ≠ m)).map
        (fun b => (b.1, detachChild m b.2))) id =
      if id = m then none else (findBlock l id).map (detachChild m) := by
  induction l with
  | nil => simp [findBlock]
  | cons b rest ih =>
    rw [List.filter_cons]
    by_cases hbm : b.1 = m
    · rw [if_neg (by simp [hbm]), ih]
      by_cases hbd : id = m
      · rw [if_pos hbd, if_pos hbd]
      · rw [if_neg hbd, if_neg hbd]
        have hfb : findBlock (b :: rest) id = findBlock rest id := by
          rw [findBlock,
            if_neg (show ¬b.1 = id by intro hh; exact hbd (by omega))]
        rw [hfb]
    · rw [if_pos (by simp [hbm]), List.map_cons]
      simp only [findBlock]
      by_cases hbd : b.1 = id
      · have hid : ¬id = m := by intro hh; exact hbm (by omega)
        rw [if_pos hbd, if_neg hid, if_pos hbd]
        rfl
      · rw [if_neg hbd, ih, if_neg hbd]

theorem isValid_updateBlock (st : EngineState) (i : Nat)
    (f : BlockData → BlockData) (id : Nat) :
    isValid (updateBlock st i f) id = isValid st id := by
  unfold isValid lookupBlock updateBlock
  rw [findBlock_update]
  by_cases h : id = i <;> simp [h]

theorem lookupGeom_updateBlock_ne (st : EngineState) (i : Nat)
    (f : BlockData → BlockData) (id : Nat) (h : id ≠ i) :
    lookupGeom (updateBlock st i f) id = lookupGeom st id := by
  unfold lookupGeom lookupBlock updateBlock
  rw [findBlock_update, if_neg h]

theorem lookupGeom_appendChild (st : EngineState) (parent child id : Nat) :
    lookupGeom (appendChild st parent child) id = lookupGeom st id := by
  unfold appendChild lookupGeom lookupBlock updateBlock
  dsimp only
  rw [findBlock_update st.blocks parent
    (fun d => { d with children := d.children ++ [child] }) id]
  by_cases h : id = parent
  · rw [if_pos h]
    cases findBlock st.blocks id <;> rfl
  · rw [if_neg h]

theorem isValid_appendChild (st : EngineState) (parent child id : Nat) :
    isValid (appendChild st parent child) id = isValid st id := by
  unfold appendChild
  exact isValid_updateBlock st parent _ id

theorem isValid_createBlock (st : EngineState) (id : Nat) :
    isValid (createBlock st).2 id = true →
      isValid st id = true ∨ id = st.nextId := by
  unfold isValid lookupBlock createBlock
  exact findBlock_append_singleton_isSome st.blocks st.nextId {} id

theorem lookupGeom_createBlock_ne (st : EngineState) (id : Nat)
    (h : id ≠ st.nextId) :
    lookupGeom (createBlock st).2 id = lookupGeom st id := by
  unfold lookupGeom lookupBlock createBlock
  rw [findBlock_append_singleton st.blocks st.nextId {} id h]

theorem isValid_destroyBlock (st : EngineState) (m id : Nat) :
    isValid (destroyBlock st m) id = true ↔
      isValid st id = true ∧ id ≠ m := by
  unfold isValid lookupBlock destroyBlock
  rw [findBlock_destroy]
  by_cases h : id = m
  · simp [h]
  · simp [h]

theorem lookupGeom_destroyBlock_ne (st : EngineState) (m id : Nat)
    (h : id ≠ m) :
    lookupGeom (destroyBlock st m) id = lookupGeom st id := by
  unfold lookupGeom lookupBlock destroyBlock
  rw [findBlock_destroy, if_neg h]
  cases findBlock st.blocks id <;> rfl

theorem isValid_false_of_bounded (st : EngineState) (id : Nat)
    (hbounded : ∀ p ∈ st.blocks, p.1 < st.nextId) (h : st.nextId ≤ id) :
    isValid st id = false := by
  cases hv : isValid st id
  · rfl
  · exfalso
    unfold isValid at hv
    obtain ⟨d, hd⟩ := Option.isSome_iff_exists.mp hv
    have hmem := findBlock_mem st.blocks id d hd
    have := hbounded (id, d) hmem
    omega

theorem updateBlock_nextId (st : EngineState) (i : Nat)
    (f : BlockData → BlockData) : (updateBlock st i f).nextId = st.nextId :=
  rfl

theorem appendChild_nextId (st : EngineState) (parent child : Nat) :
    (appendChild st parent child).nextId = st.nextId :=
  rfl

theorem createClipMaskLayer_spec (docWidth docHeight : ℚ)
    (psdNode : PsdGroupNode) (page : Nat) (st : EngineState) :
    (∀ m, (createClipMaskLayer docWidth docHeight psdNode page st).1 = some m →
      m = st.nextId) ∧
    ((createClipMaskLayer docWidth docHeight psdNode page st).1 = none →
      (createClipMaskLayer docWidth docHeight psdNode page st).2 = st) ∧
    st.nextId ≤ (createClipMaskLayer docWidth docHeight psdNode page st).2.nextId ∧
    (∀ id, isValid (createClipMaskLayer docWidth docHeight psdNode page st).2 id = true →
      isValid st id = true ∨
        (createClipMaskLayer docWidth docHeight psdNode page st).1 = some id) ∧
    (∀ id, id < st.nextId →
      lookupGeom (createClipMaskLayer docWidth docHeight psdNode page st).2 id =
        lookupGeom st id) := by
  cases hv : psdNode.vmsk with
  | none =>
    refine ⟨?_, ?_, ?_, ?_, ?_⟩ <;>
      simp [createClipMaskLayer, hv]
  | some pathRecords =>
    have hcb : (createBlock st).1 = st.nextId := rfl
    simp only [createClipMaskLayer, hv]
    refine ⟨?_, ?_, ?_, ?_, ?_⟩
    · intro m hm
      simp only [Option.some.injEq] at hm
      rw [← hm, hcb]
    · intro hm
      simp at hm
    · rw [appendChild_nextId, updateBlock_nextId, updateBlock_nextId,
        updateBlock_nextId]
      show st.nextId ≤ st.nextId + 1
      omega
    · intro id hvalid
      rw [isValid_appendChild, isValid_updateBlock, isValid_updateBlock,
        isValid_updateBlock] at hvalid
      rcases isValid_createBlock st id hvalid with h | h
      · exact Or.inl h
      · exact Or.inr (by rw [h, hcb])
    · intro id hlt
      rw [lookupGeom_appendChild,
        lookupGeom_updateBlock_ne _ _ _ _ (by rw [hcb]; omega),
        lookupGeom_updateBlock_ne _ _ _ _ (by rw [hcb]; omega),
        lookupGeom_updateBlock_ne _ _ _ _ (by rw [hcb]; omega),
        lookupGeom_createBlock_ne _ _ (by omega)]

theorem gatherParentClipMasks_spec (docWidth docHeight : ℚ) (page : Nat) :
    ∀ (ancestors : List PsdGroupNode) (st : EngineState),
      st.nextId ≤
          (gatherParentClipMasks docWidth docHeight ancestors page st).2.nextId ∧
      (∀ m ∈ (gatherParentClipMasks docWidth docHeight ancestors page st).1,
        st.nextId ≤ m) ∧
      (∀ id,
        isValid (gatherParentClipMasks docWidth docHeight ancestors page st).2
            id = true →
          isValid st id = true ∨
            id ∈ (gatherParentClipMasks docWidth docHeight ancestors page st).1) ∧
      (∀ id, id < st.nextId →
        lookupGeom
            (gatherParentClipMasks docWidth docHeight ancestors page st).2 id =
          lookupGeom st id) := by
  intro ancestors
  induction ancestors with
  | nil =>
    intro st
    refine ⟨le_refl _, ?_, ?_, ?_⟩ <;> simp [gatherParentClipMasks]
  | cons currentNode rest ih =>
    intro st
    by_cases hg : currentNode.isGroup
    · have hcl := createClipMaskLayer_spec docWidth docHeight currentNode page st
      obtain ⟨hclSome, hclNone, hclMono, hclValid, hclGeom⟩ := hcl
      rcases hcc : createClipMaskLayer docWidth docHeight currentNode page st
        with ⟨r1, st1⟩
      rw [hcc] at hclSome hclNone hclMono hclValid hclGeom
      dsimp only at hclSome hclNone hclMono hclValid hclGeom
      cases r1 with
      | none =>
        have hst1 : st1 = st := hclNone rfl
        have hrw : gatherParentClipMasks docWidth docHeight
            (currentNode :: rest) page st =
            gatherParentClipMasks docWidth docHeight rest page st := by
          simp only [gatherParentClipMasks, if_pos hg, hcc, hst1]
        rw [hrw]
        exact ih st
      | some m =>
        have hm : m = st.nextId := hclSome m rfl
        obtain ⟨ihMono, ihMasks, ihValid, ihGeom⟩ := ih st1
        have hrw : gatherParentClipMasks docWidth docHeight
            (currentNode :: rest) page st =
            (m :: (gatherParentClipMasks docWidth docHeight rest page st1).1,
              (gatherParentClipMasks docWidth docHeight rest page st1).2) := by
          simp only [gatherParentClipMasks, if_pos hg, hcc]
        rw [hrw]
        dsimp only
        refine ⟨?_, ?_, ?_, ?_⟩
        · exact le_trans hclMono ihMono
        · intro m' hm'
          rcases List.mem_cons.mp hm' with h | h
          · omega
          · have := ihMasks m' h
            omega
        · intro id hvalid
          rcases ihValid id hvalid with h | h
          · rcases hclValid id h with h2 | h2
            · exact Or.inl h2
            · simp only [Option.some.injEq] at h2
              subst h2
              exact Or.inr (List.mem_cons_self _ _)
          · exact Or.inr (List.mem_cons_of_mem m h)
        · intro id hlt
          rw [ihGeom id (by omega), hclGeom id hlt]
    · have hrw : gatherParentClipMasks docWidth docHeight
          (currentNode :: rest) page st =
          gatherParentClipMasks docWidth docHeight rest page st := by
        simp only [gatherParentClipMasks, if_neg hg]
      rw [hrw]
      exact ih st

theorem destroyStep_isValid (st : EngineState) (m id : Nat) :
    isValid (if isValid st m then destroyBlock st m else st) id = true ↔
      isValid st id = true ∧ id ≠ m := by
  by_cases hm : isValid st m
  · rw [if_pos hm]
    exact isValid_destroyBlock st m id
  · rw [if_neg hm]
    constructor
    · intro h
      refine ⟨h, ?_⟩
      intro he
      subst he
      exact hm h
    · intro h
      exact h.1

theorem destroyFold_isValid :
    ∀ (masks : List Nat) (st : EngineState) (id : Nat),
      isValid (masks.foldl
          (fun s m => if isValid s m then destroyBlock s m else s) st) id =
          true ↔
        (isValid st id = true ∧ id ∉ masks) := by
  intro masks
  induction masks with
  | nil => intro st id; simp
  | cons m rest ih =>
    intro st id
    rw [List.foldl_cons, ih, destroyStep_isValid]
    simp only [List.mem_cons]
    constructor
    · intro h
      exact ⟨h.1.1, by push_neg; exact ⟨h.1.2, h.2⟩⟩
    · intro h
      push_neg at h
      exact ⟨⟨h.1, h.2.1⟩, h.2.2⟩

theorem destroyFold_geom :
    ∀ (masks : List Nat) (st : EngineState) (id : Nat), id ∉ masks →
      lookupGeom (masks.foldl
          (fun s m => if isValid s m then destroyBlock s m else s) st) id =
        lookupGeom st id := by
  intro masks
  induction masks with
  | nil => intro st id _; rfl
  | cons m rest ih =>
    intro st id hnm
    simp only [List.mem_cons] at hnm
    push_neg at hnm
    rw [List.foldl_cons, ih _ _ hnm.2]
    by_cases hm : isValid st m
    · rw [if_pos hm]
      exact lookupGeom_destroyBlock_ne st m id hnm.1
    · rw [if_neg hm]

/-- C5: when the intersection combine fails, `applyParentClipMasks` returns
the original block id, the block's position and size are exactly what they
were before the call, and no block created during the call (every id at or
above the entry `nextId`, in particular every mask block) is left alive. -/
theorem applyParentClipMasks_combine_failure
    (combine : List Nat → EngineState → Option (Nat × EngineState))
    (docWidth docHeight : ℚ) (ancestors : List PsdGroupNode)
    (block page : Nat) (st : EngineState)
    (hblock : block < st.nextId)
    (hbounded : ∀ p ∈ st.blocks, p.1 < st.nextId)
    (hfail : combine
        (block ::
          (gatherParentClipMasks docWidth docHeight ancestors page st).1)
        (gatherParentClipMasks docWidth docHeight ancestors page st).2 =
      none) :
    (applyParentClipMasks combine docWidth docHeight ancestors block page
        st).1 = block ∧
    lookupGeom (applyParentClipMasks combine docWidth docHeight ancestors
        block page st).2 block = lookupGeom st block ∧
    (∀ id, st.nextId ≤ id →
      isValid (applyParentClipMasks combine docWidth docHeight ancestors
          block page st).2 id = false) := by
  obtain ⟨hmono, hmasks, hvalid, hgeom⟩ :=
    gatherParentClipMasks_spec docWidth docHeight page ancestors st
  by_cases hlen :
      (gatherParentClipMasks docWidth docHeight ancestors page st).1.length = 0
  · have hnil :
        (gatherParentClipMasks docWidth docHeight ancestors page st).1 = [] :=
      List.length_eq_zero.mp hlen
    have hres : applyParentClipMasks combine docWidth docHeight ancestors
        block page st =
        (block, (gatherParentClipMasks docWidth docHeight ancestors page
          st).2) := by
      simp only [applyParentClipMasks, if_pos hlen]
    rw [hres]
    refine ⟨rfl, hgeom block hblock, ?_⟩
    intro id hid
    cases hv : isValid
        (gatherParentClipMasks docWidth docHeight ancestors page st).2 id
    · rfl
    · exfalso
      rcases hvalid id hv with h | h
      · rw [isValid_false_of_bounded st id hbounded hid] at h
        exact Bool.false_ne_true h
      · rw [hnil] at h
        exact List.not_mem_nil id h
  · have hres : applyParentClipMasks combine docWidth docHeight ancestors
        block page st =
        (block,
          (gatherParentClipMasks docWidth docHeight ancestors page st).1.foldl
            (fun s m => if isValid s m then destroyBlock s m else s)
            (gatherParentClipMasks docWidth docHeight ancestors page st).2) := by
      simp only [applyParentClipMasks, if_neg hlen, hfail]
    rw [hres]
    have hblockNotMask :
        block ∉ (gatherParentClipMasks docWidth docHeight ancestors page
          st).1 := by
      intro hmem
      have := hmasks block hmem
      omega
    refine ⟨rfl, ?_, ?_⟩
    · rw [destroyFold_geom _ _ _ hblockNotMask]
      exact hgeom block hblock
    · intro id hid
      cases hv : isValid ((gatherParentClipMasks docWidth docHeight ancestors
          page st).1.foldl
          (fun s m => if isValid s m then destroyBlock s m else s)
          (gatherParentClipMasks docWidth docHeight ancestors page st).2) id
      · rfl
      · exfalso
        obtain ⟨hvalid1, hnotmask⟩ := (destroyFold_isValid _ _ _).mp hv
        rcases hvalid id hvalid1 with h | h
        · rw [isValid_false_of_bounded st id hbounded hid] at h
          exact Bool.false_ne_true h
        · exact hnotmask h

/-- A concrete engine state for the C5 witness: a page (id 0) and a primary
block (id 1) at position (10, 20) with size 100 times 50. -/
def engineSt0 : EngineState :=
  ⟨[(0, {}), (1, { posX := 10, posY := 20, width := 100, height := 50 })], 2⟩

/-- A combine oracle that always fails (the intersection is empty). -/
def failingCombine : List Nat → EngineState → Option (Nat × EngineState) :=
  fun _ _ => none

/-- A group ancestor carrying a vector mask (with an empty record list). -/
def maskAncestor : PsdGroupNode := ⟨true, some [], false⟩

/-- Witness for C5: with one mask-bearing group ancestor and a combine call
that fails, the returned id is the input block id 1, its geometry is
untouched, and the created mask block (id 2) is not left behind. -/
theorem applyParentClipMasks_combine_failure_witness :
    (applyParentClipMasks failingCombine 200 100 [maskAncestor] 1 0
        engineSt0).1 = 1 ∧
      lookupGeom (applyParentClipMasks failingCombine 200 100 [maskAncestor]
          1 0 engineSt0).2 1 = lookupGeom engineSt0 1 ∧
      isValid (applyParentClipMasks failingCombine 200 100 [maskAncestor] 1 0
          engineSt0).2 2 = false := by
  have h := applyParentClipMasks_combine_failure failingCombine 200 100
    [maskAncestor] 1 0 engineSt0 (by decide)
    (by intro p hp; simp [engineSt0] at hp; rcases hp with h1 | h1 <;>
      simp [h1, engineSt0]) rfl
  exact ⟨h.1, h.2.1, h.2.2 2 (by decide)⟩

/-! ## Text-variable escaping (`replaceTextVariables`,
`revertReplaceTextVariables`, utils.ts 199-245).  Text strings are modelled
as `List Char`; the engine text state is just the stored string. -/

/-- One recorded replacement: the index of a replaced character and the
original character to restore there. -/
structure CharacterReplacement where
  index : Nat
  character : Char
deriving DecidableEq

/-- One attempt of the regex `\{\{[^}]+\}\}` at the head of the string:
two opening braces, a nonempty maximal run of non-closing-brace characters
(`[^}]+` is greedy, and backtracking cannot help because a shorter run ends
on a non-closing-brace), then two closing braces.  Returns the inner run and
the remainder after the match. -/
def matchVariable : List Char → Option (List Char × List Char)
  | '{' :: '{' :: rest =>
    let inner := rest.takeWhile (fun c => ¬c = '}')
    let after := rest.dropWhile (fun c => ¬c = '}')
    if inner.isEmpty then none
    else
      match after with
      | '}' :: '}' :: rest2 => some (inner, rest2)
      | _ => none
  | _ => none

theorem matchVariable_some_shape (l inner rest2 : List Char)
    (h : matchVariable l = some (inner, rest2)) :
    l = '{' :: '{' :: (inner ++ '}' :: '}' :: rest2) := by
  rw [matchVariable.eq_def] at h
  split at h
  · rename_i rest
    dsimp only at h
    by_cases he : (rest.takeWhile (fun c => ¬c = '}')).isEmpty
    · rw [if_pos he] at h
      exact absurd h (by simp)
    · rw [if_neg he] at h
      split at h
      · rename_i rest2' heq
        injection h with h1
        injection h1 with h2 h3
        subst h2
        subst h3
        have hsplit := List.takeWhile_append_dropWhile
          (p := fun c => decide (¬c = '}')) (l := rest)
        rw [heq] at hsplit
        exact congrArg (fun t => '{' :: '{' :: t) hsplit.symm
      · exact absurd h (by simp)
  · exact absurd h (by simp)

theorem matchVariable_some_length (l inner rest2 : List Char)
    (h : matchVariable l = some (inner, rest2)) :
    l.length = inner.length + 4 + rest2.length := by
  rw [matchVariable_some_shape l inner rest2 h]
  simp
  omega

/-- The global scan of `text.replace` with the variable regex, together
with the indices the replacement callback records: at each position try the
pattern; on a match, replace the four brace characters by the replacement
character `*` (keeping the inner text), record the four original characters
at their absolute indices, and continue after the match; otherwise keep the
character and move on.  `offset` is the absolute position of the current
suffix; since the replacement has the same length as the match, positions
in the original and in the rewritten string coincide. -/
def replaceScan : List Char → Nat → List Char × List CharacterReplacement
  | [], _ => ([], [])
  | c :: cs, offset =>
    match h : matchVariable (c :: cs) with
    | some (inner, rest2) =>
      let matchLen := inner.length + 4
      let r := replaceScan rest2 (offset + matchLen)
      ('*' :: '*' :: (inner ++ '*' :: '*' :: r.1),
        ⟨offset, '{'⟩ :: ⟨offset + 1, '{'⟩ :: ⟨offset + matchLen - 2, '}'⟩ ::
          ⟨offset + matchLen - 1, '}'⟩ :: r.2)
    | none =>
      let r := replaceScan cs (offset + 1)
      (c :: r.1, r.2)
termination_by l _ => l.length
decreasing_by
  all_goals simp_wf
  have hlen := matchVariable_some_length _ _ _ h
  simp at hlen
  omega

theorem replaceScan_cons_some (c : Char) (cs inner rest2 : List Char)
    (offset : Nat) (h : matchVariable (c :: cs) = some (inner, rest2)) :
    replaceScan (c :: cs) offset =
      ('*' :: '*' ::
          (inner ++ '*' :: '*' ::
            (replaceScan rest2 (offset + (inner.length + 4))).1),
        ⟨offset, '{'⟩ :: ⟨offset + 1, '{'⟩ ::
          ⟨offset + (inner.length + 4) - 2, '}'⟩ ::
          ⟨offset + (inner.length + 4) - 1, '}'⟩ ::
          (replaceScan rest2 (offset + (inner.length + 4))).2) := by
  rw [replaceScan.eq_def]
  dsimp only
  split
  · rename_i inner' rest2' heq
    rw [h] at heq
    injection heq with heq1
    injection heq1 with h1 h2
    subst h1
    subst h2
    rfl
  · rename_i heq
    rw [h] at heq
    exact absurd heq (by simp)

theorem replaceScan_cons_none (c : Char) (cs : List Char) (offset : Nat)
    (h : matchVariable (c :: cs) = none) :
    replaceScan (c :: cs) offset =
      (c :: (replaceScan cs (offset + 1)).1,
        (replaceScan cs (offset + 1)).2) := by
  rw [replaceScan.eq_def]
  dsimp only
  split
  · rename_i inner' rest2' heq
    rw [h] at heq
    exact absurd heq (by simp)
  · rfl

theorem replaceScan_nil (offset : Nat) : replaceScan [] offset = ([], []) := by
  rw [replaceScan.eq_def]

/-- Embedding of `engine.block.replaceText(block, s, from, to)`: splice `s`
over the range from `fromIdx` (inclusive) to `toIdx` (exclusive) of the
stored text. -/
def replaceText (text s : List Char) (fromIdx toIdx : Nat) : List Char :=
  text.take fromIdx ++ s ++ text.drop toIdx

/-- Embedding of `revertReplaceTextVariables` (utils.ts lines 229-245): walk
the recorded replacements from the end of the array to the start, restoring
each original character over the single-character range at its index.
`foldr` applies the last array element first, matching the source loop. -/
def revertReplaceTextVariables (text : List Char)
    (indices : List CharacterReplacement) : List Char :=
  indices.foldr
    (fun r t => replaceText t [r.character] r.index (r.index + 1)) text

/-- Embedding of `replaceTextVariables` (utils.ts lines 206-227): rewrite
the stored text with the global scan and return the recorded replacements
sorted ascending by index (the source sorts with the comparator
`a.index - b.index`; `insertionSort` is a comparison sort and agrees with
it). -/
def replaceTextVariables (text : List Char) :
    List Char × List CharacterReplacement :=
  let r := replaceScan text 0
  (r.1, r.2.insertionSort (fun a b => a.index ≤ b.index))

theorem revert_cons (t : List Char) (r : CharacterReplacement)
    (rest : List CharacterReplacement) :
    revertReplaceTextVariables t (r :: rest) =
      replaceText (revertReplaceTextVariables t rest) [r.character] r.index
        (r.index + 1) :=
  rfl

theorem replaceText_at (X Y : List Char) (y c : Char) :
    replaceText (X ++ y :: Y) [c] X.length (X.length + 1) = X ++ c :: Y := by
  unfold replaceText
  have ht : (X ++ y :: Y).take X.length = X := List.take_left X (y :: Y)
  have hd : (X ++ y :: Y).drop (X.length + 1) = Y := by
    rw [show X ++ y :: Y = (X ++ [y]) ++ Y by simp]
    rw [show X.length + 1 = (X ++ [y]).length by simp]
    exact List.drop_left (X ++ [y]) Y
  rw [ht, hd]
  simp

theorem replaceText_at_of_eq (X Y : List Char) (y c : Char) (i : Nat)
    (hi : i = X.length) :
    replaceText (X ++ y :: Y) [c] i (i + 1) = X ++ c :: Y := by
  subst hi
  exact replaceText_at X Y y c

theorem replaceScan_indices_lb :
    ∀ (n : Nat) (cs : List Char) (offset : Nat), cs.length ≤ n →
      ∀ r ∈ (replaceScan cs offset).2, offset ≤ r.index := by
  intro n
  induction n with
  | zero =>
    intro cs offset hlen r hr
    have hnil : cs = [] := List.length_eq_zero.mp (Nat.le_zero.mp hlen)
    subst hnil
    rw [replaceScan_nil] at hr
    simp at hr
  | succ n ih =>
    intro cs offset hlen r hr
    rcases cs with _ | ⟨c, cs'⟩
    · rw [replaceScan_nil] at hr
      simp at hr
    · cases hm : matchVariable (c :: cs') with
      | none =>
        rw [replaceScan_cons_none c cs' offset hm] at hr
        dsimp only at hr
        have := ih cs' (offset + 1) (by simp at hlen ⊢; omega) r hr
        omega
      | some p =>
        rcases p with ⟨inner, rest2⟩
        rw [replaceScan_cons_some c cs' inner rest2 offset hm] at hr
        have hlen2 : rest2.length ≤ n := by
          have := matchVariable_some_length _ _ _ hm
          simp at this hlen
          omega
        simp only [List.mem_cons] at hr
        rcases hr with h | h | h | h | h
        · subst h; exact le_refl _
        · subst h; dsimp only; omega
        · subst h; dsimp only; omega
        · subst h; dsimp only; omega
        · have := ih rest2 (offset + (inner.length + 4)) hlen2 r h
          omega

theorem replaceScan_sorted :
    ∀ (n : Nat) (cs : List Char) (offset : Nat), cs.length ≤ n →
      List.Sorted (fun a b : CharacterReplacement => a.index ≤ b.index)
        (replaceScan cs offset).2 := by
  intro n
  induction n with
  | zero =>
    intro cs offset hlen
    have hnil : cs = [] := List.length_eq_zero.mp (Nat.le_zero.mp hlen)
    subst hnil
    rw [replaceScan_nil]
    exact List.sorted_nil
  | succ n ih =>
    intro cs offset hlen
    rcases cs with _ | ⟨c, cs'⟩
    · rw [replaceScan_nil]
      exact List.sorted_nil
    · cases hm : matchVariable (c :: cs') with
      | none =>
        rw [replaceScan_cons_none c cs' offset hm]
        exact ih cs' (offset + 1) (by simp at hlen ⊢; omega)
      | some p =>
        rcases p with ⟨inner, rest2⟩
        rw [replaceScan_cons_some c cs' inner rest2 offset hm]
        have hlen2 : rest2.length ≤ n := by
          have := matchVariable_some_length _ _ _ hm
          simp at this hlen
          omega
        have hlb : ∀ r ∈ (replaceScan rest2 (offset + (inner.length + 4))).2,
            offset + (inner.length + 4) ≤ r.index :=
          replaceScan_indices_lb rest2.length rest2 _ (le_refl _)
        have htail : List.Sorted
            (fun a b : CharacterReplacement => a.index ≤ b.index)
            (replaceScan rest2 (offset + (inner.length + 4))).2 :=
          ih rest2 (offset + (inner.length + 4)) hlen2
        refine List.Pairwise.cons ?_ (List.Pairwise.cons ?_
          (List.Pairwise.cons ?_ (List.Pairwise.cons ?_ htail))) <;>
          intro b hb <;>
          simp only [List.mem_cons] at hb
        · rcases hb with h | h | h | h
          · subst h; dsimp only; omega
          · subst h; dsimp only; omega
          · subst h; dsimp only; omega
          · have := hlb b h; dsimp only; omega
        · rcases hb with h | h | h
          · subst h; dsimp only; omega
          · subst h; dsimp only; omega
          · have := hlb b h; dsimp only; omega
        · rcases hb with h | h
          · subst h; dsimp only; omega
          · have := hlb b h; dsimp only; omega
        · have := hlb b hb; dsimp only; omega

theorem replaceScan_roundtrip :
    ∀ (n : Nat) (cs : List Char) (offset : Nat) (pre : List Char),
      cs.length ≤ n → pre.length = offset →
      revertReplaceTextVariables (pre ++ (replaceScan cs offset).1)
          (replaceScan cs offset).2 = pre ++ cs := by
  intro n
  induction n with
  | zero =>
    intro cs offset pre hlen hpre
    have hnil : cs = [] := List.length_eq_zero.mp (Nat.le_zero.mp hlen)
    subst hnil
    rw [replaceScan_nil]
    rfl
  | succ n ih =>
    intro cs offset pre hlen hpre
    rcases cs with _ | ⟨c, cs'⟩
    · rw [replaceScan_nil]
      rfl
    · cases hm : matchVariable (c :: cs') with
      | none =>
        rw [replaceScan_cons_none c cs' offset hm]
        dsimp only
        rw [show pre ++ c :: (replaceScan cs' (offset + 1)).1 =
          (pre ++ [c]) ++ (replaceScan cs' (offset + 1)).1 by simp]
        rw [ih cs' (offset + 1) (pre ++ [c]) (by simp at hlen ⊢; omega)
          (by simp [hpre])]
        simp
      | some p =>
        rcases p with ⟨inner, rest2⟩
        rw [replaceScan_cons_some c cs' inner rest2 offset hm]
        have hlen2 : rest2.length ≤ n := by
          have := matchVariable_some_length _ _ _ hm
          simp at this hlen
          omega
        rw [revert_cons, revert_cons, revert_cons, revert_cons]
        dsimp only
        rw [show pre ++ '*' :: '*' ::
            (inner ++ '*' :: '*' ::
              (replaceScan rest2 (offset + (inner.length + 4))).1) =
          (pre ++ '*' :: '*' :: inner ++ ['*', '*']) ++
            (replaceScan rest2 (offset + (inner.length + 4))).1 by simp]
        rw [ih rest2 (offset + (inner.length + 4))
          (pre ++ '*' :: '*' :: inner ++ ['*', '*']) hlen2
          (by simp only [List.length_append, List.length_cons,
            List.length_nil, hpre]; try omega)]
        rw [show (pre ++ '*' :: '*' :: inner ++ ['*', '*']) ++ rest2 =
          (pre ++ '*' :: '*' :: inner ++ ['*']) ++ '*' :: rest2 by simp]
        rw [replaceText_at_of_eq (pre ++ '*' :: '*' :: inner ++ ['*']) rest2
          '*' '}' (offset + (inner.length + 4) - 1)
          (by simp only [List.length_append, List.length_cons,
            List.length_nil, hpre]; try omega)]
        rw [show (pre ++ '*' :: '*' :: inner ++ ['*']) ++ '}' :: rest2 =
          (pre ++ '*' :: '*' :: inner) ++ '*' :: ('}' :: rest2) by simp]
        rw [replaceText_at_of_eq (pre ++ '*' :: '*' :: inner) ('}' :: rest2)
          '*' '}' (offset + (inner.length + 4) - 2)
          (by simp only [List.length_append, List.length_cons,
            List.length_nil, hpre]; try omega)]
        rw [show (pre ++ '*' :: '*' :: inner) ++ '}' :: '}' :: rest2 =
          (pre ++ ['*']) ++ '*' :: (inner ++ '}' :: '}' :: rest2) by simp]
        rw [replaceText_at_of_eq (pre ++ ['*']) (inner ++ '}' :: '}' :: rest2)
          '*' '{' (offset + 1)
          (by simp only [List.length_append, List.length_cons,
            List.length_nil, hpre]; try omega)]
        rw [show (pre ++ ['*']) ++ '{' :: (inner ++ '}' :: '}' :: rest2) =
          pre ++ '*' :: ('{' :: (inner ++ '}' :: '}' :: rest2)) by simp]
        rw [replaceText_at_of_eq pre ('{' :: (inner ++ '}' :: '}' :: rest2))
          '*' '{' offset hpre.symm]
        rw [matchVariable_some_shape (c :: cs') inner rest2 hm]

/-- C4: for every text string (with zero or more variable tokens, adjacent
or nested-looking ones included), applying `replaceTextVariables` and then
`revertReplaceTextVariables` with the returned replacement list restores
exactly the original string.  The replacement preserves positions (`*`
substitutes each of the four brace characters of a match), the recorded
indices are exactly the replaced positions, and sorting leaves the already
ascending record list unchanged. -/
theorem replaceTextVariables_roundtrip (text : List Char) :
    revertReplaceTextVariables (replaceTextVariables text).1
      (replaceTextVariables text).2 = text := by
  unfold replaceTextVariables
  dsimp only
  rw [List.Sorted.insertionSort_eq
    (replaceScan_sorted text.length text 0 (le_refl _))]
  have h := replaceScan_roundtrip text.length text 0 [] (le_refl _) rfl
  simpa using h

end PsdImporter
